import Mathlib

/-!
Shallow embedding of `src/run_as_tptp_test_suite.py`, the markup-driven
TPTP test-suite harness: the markup splitter (`split_tptp_input`), the
per-case executor (`run_test_case` and its artifact classification), and
the suite orchestrator (`run_test_cases`, `run_test_suite`).

Documents are modelled as lists of lines; a line is a list of characters
without its trailing newline (the Python code iterates over the lines of
a file, each carrying its newline; where the source concatenates a line
into accumulated text we re-append the newline explicitly).  The external
prover subprocess is modelled as an oracle from the concatenated input
text to the list of lines of the captured artifact.  Filesystem effects
that matter to the claims (creating a result artifact, invoking the
prover) are recorded as explicit events; the creation of the results
directory itself is stateful filesystem probing and is not modelled.
-/

namespace TptpSuite

abbrev Line := List Char

/-- Python regex `\s` character class: space, tab, newline, carriage
return, form feed, vertical tab. -/
def isPySpace (c : Char) : Bool :=
  c = ' ' || c = '\t' || c = '\n' || c = '\r' || c = '\x0b' || c = '\x0c'

/-- Consume a leading `\s*`. -/
def dropSpaces (cs : Line) : Line := cs.dropWhile isPySpace

/-- Python `str.strip()`: remove whitespace at both ends. -/
def stripLine (l : Line) : Line :=
  ((l.dropWhile isPySpace).reverse.dropWhile isPySpace).reverse

/-- Join lines back into a flat text, re-appending the newline each line
carried in the Python source. -/
def joinNL : List Line → Line
  | [] => []
  | l :: ls => l ++ '\n' :: joinNL ls

/-- Match a literal pattern case-insensitively at the head of the input
(regex `IGNORECASE` literal); returns the rest of the input on success. -/
def matchCI : Line → Line → Option Line
  | [], rest => some rest
  | _ :: _, [] => none
  | p :: ps, c :: cs => if c.toLower = p.toLower then matchCI ps cs else none

/-- Match a literal pattern case-sensitively at the head of the input
(Python `re.match` on a literal pattern is anchored at line start). -/
def matchLitCS : Line → Line → Bool
  | [], _ => true
  | _ :: _, [] => false
  | p :: ps, c :: cs => p = c && matchLitCS ps cs

/-- Match a literal `%`. -/
def matchPercent : Line → Option Line
  | '%' :: cs => some cs
  | _ => none

/-- Consume an optional colon (regex `:?`).  The following regex atom in
every marker pattern is `\s*` followed by a letter or by `.*`, neither of
which can begin at a `:`, so consuming the colon greedily agrees with the
regex backtracking semantics. -/
def matchOptColon : Line → Line
  | ':' :: cs => cs
  | cs => cs

/-- Regex `\s*%\s*Test\s*runner\s*:?\s*begin` (IGNORECASE), from
`split_tptp_input`. -/
def matchBeginLine (l : Line) : Bool :=
  match matchPercent (dropSpaces l) with
  | none => false
  | some r1 =>
    match matchCI "test".toList (dropSpaces r1) with
    | none => false
    | some r2 =>
      match matchCI "runner".toList (dropSpaces r2) with
      | none => false
      | some r3 =>
        (matchCI "begin".toList (dropSpaces (matchOptColon (dropSpaces r3)))).isSome

/-- Regex `\s*%\s*Test\s*runner\s*:?\s*end` (IGNORECASE), from
`split_tptp_input`. -/
def matchEndLine (l : Line) : Bool :=
  match matchPercent (dropSpaces l) with
  | none => false
  | some r1 =>
    match matchCI "test".toList (dropSpaces r1) with
    | none => false
    | some r2 =>
      match matchCI "runner".toList (dropSpaces r2) with
      | none => false
      | some r3 =>
        (matchCI "end".toList (dropSpaces (matchOptColon (dropSpaces r3)))).isSome

/-- The part `[tT]est\s*case\s*:?\s*(?P<name>.*)` of the test-case regex:
returns the raw `name` group (the rest of the line). -/
def matchCaseTail (cs : Line) : Option Line :=
  match matchCI "test".toList cs with
  | none => none
  | some r1 =>
    match matchCI "case".toList (dropSpaces r1) with
    | none => none
    | some r2 => some (dropSpaces (matchOptColon (dropSpaces r2)))

/-- Regex `\s*%\s*(?P<negated>Negated)?\s*[tT]est\s*case\s*:?\s*(?P<name>.*)\s*$`
(IGNORECASE), from `split_tptp_input`; returns (negated group present,
raw name group).  The optional `(Negated)?` group backtracks to the empty
match when the remainder fails, exactly as in the regex engine. -/
def matchCaseLine (l : Line) : Option (Bool × Line) :=
  match matchPercent (dropSpaces l) with
  | none => none
  | some r1 =>
    let afterPct := dropSpaces r1
    match matchCI "negated".toList afterPct with
    | some r2 =>
      match matchCaseTail (dropSpaces r2) with
      | some rawName => some (true, rawName)
      | none =>
        match matchCaseTail afterPct with
        | some rawName => some (false, rawName)
        | none => none
    | none =>
      match matchCaseTail afterPct with
      | some rawName => some (false, rawName)
      | none => none

/-- One extracted test case: the values stored by `split_tptp_input`
under `test_cases[current_test_name]` (keys `index`, `line`, `negated`,
`text`). -/
structure TestCase where
  index : Nat
  line : Nat
  negated : Bool
  text : Line
deriving DecidableEq, Repr

instance : Inhabited TestCase :=
  ⟨{ index := 0, line := 0, negated := false, text := [] }⟩

/-- Fatal errors: in the source each is a diagnostic printed to stdout
followed by `sys.exit(1)`. -/
inductive FatalError
  | MalformedInput (name : Line) (line : Nat)
  | UnknownTestCase (name : Line)
  | NameNotFound (name : Line)
  | NoTestCases
deriving DecidableEq, Repr

/-- Lookup in the `test_cases` dictionary (`test_cases.has_key` /
`test_cases.get`): dictionary keys are unique, so an association list
searched from the front is an exact model. -/
def lookupName : List (Line × TestCase) → Line → Option TestCase
  | [], _ => none
  | p :: ps, n => if p.1 = n then some p.2 else lookupName ps n

/-- The statement `test_cases[name]['text'] = test_cases[name]['text'] + line`
(with `suffix` standing for the appended text, newline included). -/
def appendText (tcs : List (Line × TestCase)) (name : Line) (suffix : Line) :
    List (Line × TestCase) :=
  tcs.map fun p => if p.1 = name then (p.1, { p.2 with text := p.2.text ++ suffix }) else p

/-- The mutable local variables of the `split_tptp_input` reading loop. -/
structure SplitState where
  in_test : Bool
  in_non_test_matter : Bool
  current_test_count : Nat
  line_count : Nat
  non_test_matter : Line
  test_case_names : List Line
  test_cases : List (Line × TestCase)
  current_test_name : Line
deriving DecidableEq, Repr

/-- The initial values of those variables. -/
def initState : SplitState :=
  { in_test := false, in_non_test_matter := true,
    current_test_count := 0, line_count := 0,
    non_test_matter := [], test_case_names := [], test_cases := [],
    current_test_name := [] }

/-- The synthetic default name `"Test-%s" % current_test_count`. -/
def defaultName (k : Nat) : Line := "Test-".toList ++ Nat.toDigits 10 k

/-- One iteration of the `for line in input_file` loop of
`split_tptp_input`.  On a test-case marker the line is not flagged
disposable in the source, so after the dictionary entry is created with
empty text the common dispatch at the bottom of the loop appends the
marker line itself to the new case; begin/end section markers set
`disposable_line` and are dropped. -/
def splitStep (st : SplitState) (line : Line) : Except FatalError SplitState :=
  let line_count := st.line_count + 1
  match matchCaseLine line with
  | some (negated, rawName) =>
    let current_test_count := st.current_test_count + 1
    let current_test_name :=
      if (stripLine rawName).length > 0 then stripLine rawName
      else defaultName current_test_count
    let test_case_names := st.test_case_names ++ [current_test_name]
    if (lookupName st.test_cases current_test_name).isSome then
      Except.error (FatalError.MalformedInput current_test_name line_count)
    else
      let created := st.test_cases ++
        [(current_test_name,
          { index := current_test_count, line := line_count,
            negated := negated, text := [] })]
      Except.ok
        { in_test := true, in_non_test_matter := false,
          current_test_count := current_test_count, line_count := line_count,
          non_test_matter := st.non_test_matter,
          test_case_names := test_case_names,
          test_cases := appendText created current_test_name (line ++ ['\n']),
          current_test_name := current_test_name }
  | none =>
    if matchBeginLine line then
      Except.ok { st with in_non_test_matter := false, line_count := line_count }
    else if matchEndLine line then
      Except.ok { st with in_non_test_matter := true, in_test := false,
                          line_count := line_count }
    else if st.in_test then
      Except.ok { st with line_count := line_count,
                          test_cases := appendText st.test_cases st.current_test_name
                                          (line ++ ['\n']) }
    else if st.in_non_test_matter then
      Except.ok { st with line_count := line_count,
                          non_test_matter := st.non_test_matter ++ line ++ ['\n'] }
    else
      Except.ok { st with line_count := line_count }

/-- The whole reading loop: a duplicate test-case name aborts processing
(`sys.exit(1)`), modelled by the short-circuiting error. -/
def splitLinesAux (st : SplitState) : List Line → Except FatalError SplitState
  | [] => Except.ok st
  | l :: ls =>
    match splitStep st l with
    | Except.error e => Except.error e
    | Except.ok st1 => splitLinesAux st1 ls

/-- The triple returned by `split_tptp_input`. -/
structure SplitResult where
  non_test_matter : Line
  test_case_names : List Line
  test_cases : List (Line × TestCase)
deriving DecidableEq, Repr

deriving instance DecidableEq for Except

/-- `split_tptp_input`, over the list of lines of the document. -/
def split_tptp_input (doc : List Line) : Except FatalError SplitResult :=
  match splitLinesAux initState doc with
  | Except.error e => Except.error e
  | Except.ok st =>
    Except.ok { non_test_matter := st.non_test_matter,
                test_case_names := st.test_case_names,
                test_cases := st.test_cases }

/-- `re.compile` patterns of `run_test_case` used on the artifact
(case-sensitive, `re.match` anchors them at line start). -/
def successPat : Line := "# Proof found".toList

/-- Pattern whose match classifies a line as a failure line. -/
def failurePat : Line := "# No proof found".toList

/-- Pattern whose match classifies a line as a likely-failure line. -/
def likelyFailurePat : Line := "# Failure:".toList

/-- The body of the classification loop of `run_test_case`: a matching
line overwrites the running result. -/
def classify_step (result : Char) (line : Line) : Char :=
  if matchLitCS successPat line then 'S'
  else if matchLitCS failurePat line then 'F'
  else if matchLitCS likelyFailurePat line then '?'
  else result

/-- The classification loop of `run_test_case`: `result` starts at `E`
and every line of the results file is scanned; a matching line overwrites
the running result, so the last matching line wins. -/
def classify_artifact (artifact : List Line) : Char :=
  artifact.foldl classify_step 'E'

/-- Observable side effects of one case run: the per-case results file is
opened (created) first, then the prover subprocess is invoked on the
concatenated input. -/
inductive SuiteEvent
  | ArtifactWritten (path : Line)
  | ProverInvoked (input : Line)
deriving DecidableEq, Repr

/-- `run_test_case`: concatenates the non-test matter and the case text
into the prover input, invokes the prover (modelled by the `prover`
oracle from input text to captured artifact lines), and classifies the
captured artifact.  The `dry_run` and `verbosity` parameters are
accepted, as in the source, and never read. -/
def run_test_case (test_case : TestCase) (non_test_matter : Line)
    (result_filename : Line) (prover : Line → List Line)
    (dry_run : Bool) (verbosity : Nat) : Char × List SuiteEvent :=
  let test_case_text := test_case.text
  let input_text := non_test_matter ++ test_case_text
  let artifact := prover input_text
  (classify_artifact artifact,
   [SuiteEvent.ArtifactWritten result_filename, SuiteEvent.ProverInvoked input_text])

/-- The status inversion applied to a negated test case in
`run_test_cases` (`if status == 'S': status = 'F' elif status == 'F':
status = 'S'`). -/
def invert_status (status : Char) : Char :=
  if status = 'S' then 'F'
  else if status = 'F' then 'S'
  else status

/-- The summary character appended for one case: a dot for an unqualified
success, otherwise the raw status letter. -/
def summary_char (status : Char) : Char :=
  if status = 'S' then '.' else status

/-- The status phrase table of the detail-report loop of
`run_test_cases`: `status_message` defaults to `"had ERRORS"` and is
overwritten only for the `F` and `S` statuses. -/
def status_message (negated : Bool) (status : Char) : Line :=
  if negated then
    if status = 'F' then "unintentionally/undesirably succeeded".toList
    else if status = 'S' then "failed as intended".toList
    else "had ERRORS".toList
  else
    if status = 'F' then "FAILED".toList
    else if status = 'S' then "succeeded".toList
    else "had ERRORS".toList

/-- The validation loop at the top of `run_test_cases`: each requested
name is tested for membership in `tests_to_run` itself (not in the
discovered names), and the first offender triggers the error exit. -/
def validate_tests_to_run (tests_to_run : List Line) : Option Line :=
  tests_to_run.find? fun n => decide (n ∉ tests_to_run)

/-- `test_cases.get(test_case_name, {})`: a missing key yields the empty
dictionary, whose `.get('negated', False)` and `.get('text', '')` give
the defaults below.  (The detail-report loop of the source would raise a
`KeyError` on the `index`/`line` fields of a missing key; that path is
unreachable from `run_test_suite`, whose validation guarantees every
selected name was discovered, and is modelled here with the same zero
defaults.) -/
def lookupD (tcs : List (Line × TestCase)) (name : Line) : TestCase :=
  match lookupName tcs name with
  | some tc => tc
  | none => { index := 0, line := 0, negated := false, text := [] }

/-- The per-case result file name
`test_results_path + os.sep + test_case_name + ".txt"`. -/
def result_filename_for (test_results_path : Line) (name : Line) : Line :=
  test_results_path ++ '/' :: name ++ ".txt".toList

/-- One iteration of the main loop of `run_test_cases`, threading the
accumulated summary string `test_results`, the recorded
`test_case_details_to_display` triples, and the emitted events. -/
def run_cases_step (tcs : List (Line × TestCase)) (test_results_path : Line)
    (non_test_matter : Line) (prover : Line → List Line)
    (dry_run : Bool) (verbosity : Nat)
    (acc : Line × List (Line × Char × Line) × List SuiteEvent)
    (test_case_name : Line) :
    Line × List (Line × Char × Line) × List SuiteEvent :=
  let result_filename := result_filename_for test_results_path test_case_name
  let test_case := lookupD tcs test_case_name
  let negated := test_case.negated
  let ran := run_test_case test_case non_test_matter result_filename prover dry_run verbosity
  let status := if negated then invert_status ran.1 else ran.1
  if status = 'S' then
    (acc.1 ++ ['.'],
     (if verbosity > 1 then acc.2.1 ++ [(test_case_name, status, result_filename)]
      else acc.2.1),
     acc.2.2 ++ ran.2)
  else
    (acc.1 ++ [status],
     acc.2.1 ++ [(test_case_name, status, result_filename)],
     acc.2.2 ++ ran.2)

/-- The report assembled by `run_test_cases`: the printed summary string,
the recorded detail triples, and for each recorded triple the formatted
detail line data `(index, name, line, status phrase)` printed as
`Test case #index named name at line line <phrase>.`. -/
structure RunReport where
  test_results : Line
  details : List (Line × Char × Line)
  detail_reports : List (Nat × Line × Nat × Line)
deriving DecidableEq, Repr

/-- `run_test_cases`: validates the requested names (against the request
list itself — the always-true check of the source), runs every requested
case in order accumulating one summary character each, and renders the
detail report for the recorded cases.  The creation of the results
directory is filesystem probing and is not modelled. -/
def run_test_cases (tcs : List (Line × TestCase)) (tests_to_run : List Line)
    (test_results_path : Line) (non_test_matter : Line)
    (prover : Line → List Line) (dry_run : Bool) (verbosity : Nat) :
    List SuiteEvent × Except FatalError RunReport :=
  match validate_tests_to_run tests_to_run with
  | some bad => ([], Except.error (FatalError.NameNotFound bad))
  | none =>
    let run := tests_to_run.foldl
      (run_cases_step tcs test_results_path non_test_matter prover dry_run verbosity)
      ([], [], [])
    let detail_reports := run.2.1.map fun d =>
      ((lookupD tcs d.1).index, d.1, (lookupD tcs d.1).line,
       status_message (lookupD tcs d.1).negated d.2.1)
    (run.2.2,
     Except.ok { test_results := run.1, details := run.2.1,
                 detail_reports := detail_reports })

/-- The effective (negation-adjusted) status of one selected case, as
computed inside the loop of `run_test_cases`. -/
def effective_status (tcs : List (Line × TestCase)) (non_test_matter : Line)
    (test_results_path : Line) (prover : Line → List Line)
    (dry_run : Bool) (verbosity : Nat) (name : Line) : Char :=
  let test_case := lookupD tcs name
  let ran := run_test_case test_case non_test_matter
    (result_filename_for test_results_path name) prover dry_run verbosity
  if test_case.negated then invert_status ran.1 else ran.1

/-- Default results path `os.curdir + os.sep + "results"`. -/
def defaultResultsPath : Line := "./results".toList

/-- `run_test_suite`: splits the document, validates every requested name
against the discovered `test_case_names` (first offender aborts), defaults
an empty request list to all discovered names in discovery order, and runs
the selected cases; an empty document yields the no-test-cases error. -/
def run_test_suite (doc : List Line) (tests_to_run : List Line)
    (prover : Line → List Line) (dry_run : Bool) (verbosity : Nat) :
    List SuiteEvent × Except FatalError RunReport :=
  match split_tptp_input doc with
  | Except.error e => ([], Except.error e)
  | Except.ok r =>
    match tests_to_run.find? (fun n => decide (n ∉ r.test_case_names)) with
    | some bad => ([], Except.error (FatalError.UnknownTestCase bad))
    | none =>
      let sel := if tests_to_run = [] then r.test_case_names else tests_to_run
      if sel.length > 0 then
        run_test_cases r.test_cases sel defaultResultsPath r.non_test_matter
          prover dry_run verbosity
      else
        ([], Except.error FatalError.NoTestCases)

/-- A content line: one matching none of the three marker regexes. -/
def markerless (l : Line) : Bool :=
  (matchCaseLine l).isNone && !matchBeginLine l && !matchEndLine l

theorem markerless_case {l : Line} (h : markerless l = true) :
    matchCaseLine l = none := by
  simp [markerless, Option.isNone_iff_eq_none] at h
  exact h.1.1

theorem markerless_begin {l : Line} (h : markerless l = true) :
    matchBeginLine l = false := by
  simp [markerless, Option.isNone_iff_eq_none] at h
  exact h.1.2

theorem markerless_end {l : Line} (h : markerless l = true) :
    matchEndLine l = false := by
  simp [markerless, Option.isNone_iff_eq_none] at h
  exact h.2

theorem joinNL_append (xs ys : List Line) :
    joinNL (xs ++ ys) = joinNL xs ++ joinNL ys := by
  induction xs with
  | nil => simp [joinNL]
  | cons l ls ih => simp [joinNL, ih]

theorem splitLinesAux_append (st : SplitState) (xs ys : List Line) :
    splitLinesAux st (xs ++ ys) =
      (splitLinesAux st xs).bind fun st1 => splitLinesAux st1 ys := by
  induction xs generalizing st with
  | nil => simp [splitLinesAux, Except.bind]
  | cons l ls ih =>
    simp only [List.cons_append, splitLinesAux]
    cases splitStep st l with
    | error e => simp [Except.bind]
    | ok st1 => exact ih st1

/-- Processing content lines in background mode appends each of them,
newline restored, to the non-test matter. -/
theorem splitLinesAux_bg (ls : List Line) (st : SplitState)
    (hin : st.in_test = false) (hbg : st.in_non_test_matter = true)
    (hml : ∀ l ∈ ls, markerless l = true) :
    splitLinesAux st ls = Except.ok
      { st with line_count := st.line_count + ls.length,
                non_test_matter := st.non_test_matter ++ joinNL ls } := by
  induction ls generalizing st with
  | nil => simp [splitLinesAux, joinNL]
  | cons l ls ih =>
    have h1 := markerless_case (hml l (by simp))
    have h2 := markerless_begin (hml l (by simp))
    have h3 := markerless_end (hml l (by simp))
    simp only [splitLinesAux, splitStep, h1, h2, h3, hin, hbg, Bool.false_eq_true,
      if_false, if_true, ite_true, ite_false]
    rw [ih _ rfl rfl (fun x hx => hml x (by simp [hx]))]
    simp [joinNL, SplitState.mk.injEq]
    omega

/-- Processing content lines in the dead zone (no open case, not in
non-test matter) drops every one of them. -/
theorem splitLinesAux_dead (ls : List Line) (st : SplitState)
    (hin : st.in_test = false) (hbg : st.in_non_test_matter = false)
    (hml : ∀ l ∈ ls, markerless l = true) :
    splitLinesAux st ls = Except.ok
      { st with line_count := st.line_count + ls.length } := by
  induction ls generalizing st with
  | nil => simp [splitLinesAux]
  | cons l ls ih =>
    have h1 := markerless_case (hml l (by simp))
    have h2 := markerless_begin (hml l (by simp))
    have h3 := markerless_end (hml l (by simp))
    simp only [splitLinesAux, splitStep, h1, h2, h3, hin, hbg, Bool.false_eq_true,
      if_false, if_true, ite_true, ite_false]
    rw [ih _ rfl rfl (fun x hx => hml x (by simp [hx]))]
    simp [SplitState.mk.injEq]
    omega

theorem appendText_nil (tcs : List (Line × TestCase)) (n : Line) :
    appendText tcs n [] = tcs := by
  induction tcs with
  | nil => rfl
  | cons p ps ih =>
    show (if p.1 = n then (p.1, { p.2 with text := p.2.text ++ ([] : Line) }) else p) ::
        appendText ps n [] = p :: ps
    rw [ih]
    by_cases hp : p.1 = n
    · rw [if_pos hp, List.append_nil]
    · rw [if_neg hp]

theorem appendText_append (tcs : List (Line × TestCase)) (n : Line) (a b : Line) :
    appendText (appendText tcs n a) n b = appendText tcs n (a ++ b) := by
  induction tcs with
  | nil => simp [appendText]
  | cons p ps ih =>
    simp only [appendText, List.map_cons, List.map] at *
    by_cases hp : p.1 = n
    · simp [hp, ih]
    · simp [hp, ih]

/-- Processing content lines with an open case appends each of them,
newline restored, to the text of the current case. -/
theorem splitLinesAux_inTest (ls : List Line) (st : SplitState)
    (hin : st.in_test = true)
    (hml : ∀ l ∈ ls, markerless l = true) :
    splitLinesAux st ls = Except.ok
      { st with line_count := st.line_count + ls.length,
                test_cases := appendText st.test_cases st.current_test_name (joinNL ls) } := by
  induction ls generalizing st with
  | nil =>
    simp only [splitLinesAux, joinNL, List.length_nil, Nat.add_zero]
    rw [appendText_nil]
  | cons l ls ih =>
    have h1 := markerless_case (hml l (by simp))
    have h2 := markerless_begin (hml l (by simp))
    have h3 := markerless_end (hml l (by simp))
    simp only [splitLinesAux, splitStep, h1, h2, h3, hin, Bool.false_eq_true,
      if_false, if_true, ite_true, ite_false]
    rw [ih _ rfl (fun x hx => hml x (by simp [hx]))]
    simp [SplitState.mk.injEq, appendText_append, joinNL]
    omega

/-- Claim C6, amended: provided no case is open when the
begin-test-section marker appears (the marker sits in background-default
mode, as in a document of background lines, a begin marker, dead-zone
lines, a test-case marker, the case body, an end marker, and further
background lines), the lines strictly between the begin marker and the
first subsequent case marker appear neither in the returned background
nor in any case body (the split result omits them entirely), while the
background lines before the begin marker and after the end marker are
accumulated into the background in document order with nothing lost. -/
theorem dead_zone_and_background_law
    (bg1 dead body bg2 : List Line) (bl cl el : Line) (neg : Bool) (raw nm : Line)
    (hbg1 : ∀ l ∈ bg1, markerless l = true)
    (hdead : ∀ l ∈ dead, markerless l = true)
    (hbody : ∀ l ∈ body, markerless l = true)
    (hbg2 : ∀ l ∈ bg2, markerless l = true)
    (hblc : matchCaseLine bl = none) (hblb : matchBeginLine bl = true)
    (helc : matchCaseLine el = none) (helb : matchBeginLine el = false)
    (hele : matchEndLine el = true)
    (hcl : matchCaseLine cl = some (neg, raw))
    (hnm : stripLine raw = nm) (hnm0 : nm.length > 0) :
    split_tptp_input (bg1 ++ (bl :: (dead ++ (cl :: (body ++ (el :: bg2)))))) =
      Except.ok
        { non_test_matter := joinNL bg1 ++ joinNL bg2,
          test_case_names := [nm],
          test_cases := [(nm, { index := 1, line := bg1.length + dead.length + 2,
                                negated := neg, text := cl ++ '\n' :: joinNL body })] } := by
  subst hnm
  simp only [split_tptp_input]
  rw [splitLinesAux_append, splitLinesAux_bg bg1 initState rfl rfl hbg1]
  simp only [Except.bind, splitLinesAux, splitStep, hblc, hblb, if_true]
  rw [splitLinesAux_append, splitLinesAux_dead dead _ rfl rfl hdead]
  simp only [Except.bind, splitLinesAux, splitStep, hcl, hnm0, if_pos, lookupName,
    Option.isSome_none, Bool.false_eq_true, if_false, List.nil_append,
    appendText, List.map_cons, List.map_nil, if_true]
  rw [splitLinesAux_append, splitLinesAux_inTest body _ rfl hbody]
  simp only [Except.bind, appendText, List.map_cons, List.map_nil, if_true,
    splitLinesAux, splitStep, helc, helb, hele, Bool.false_eq_true, if_false]
  rw [splitLinesAux_bg bg2 _ rfl rfl hbg2]
  simp only [initState]
  simp [SplitResult.mk.injEq, TestCase.mk.injEq, Prod.mk.injEq, List.append_assoc]
  omega

/-- Witness for C6 on a concrete document. -/
theorem dead_zone_and_background_law_witness :
    split_tptp_input
        (["fof(a1,ax,(p)).".toList] ++
          ("% Test runner: begin tests.".toList ::
            (["dead zone line".toList] ++
              ("% Test case: basic_case".toList ::
                (["fof(c1,conj,(p)).".toList] ++
                  ("% Test runner: end tests.".toList ::
                    ["more background".toList])))))) =
      Except.ok
        { non_test_matter :=
            joinNL ["fof(a1,ax,(p)).".toList] ++ joinNL ["more background".toList],
          test_case_names := ["basic_case".toList],
          test_cases := [("basic_case".toList,
            { index := 1,
              line := List.length ["fof(a1,ax,(p)).".toList] +
                List.length ["dead zone line".toList] + 2,
              negated := false,
              text := "% Test case: basic_case".toList ++ '\n' ::
                joinNL ["fof(c1,conj,(p)).".toList] })] } :=
  dead_zone_and_background_law
    ["fof(a1,ax,(p)).".toList] ["dead zone line".toList]
    ["fof(c1,conj,(p)).".toList] ["more background".toList]
    "% Test runner: begin tests.".toList "% Test case: basic_case".toList
    "% Test runner: end tests.".toList false
    "basic_case".toList "basic_case".toList
    (by decide) (by decide) (by decide) (by decide) (by decide) (by decide)
    (by decide) (by decide) (by decide) (by decide) (by decide) (by decide)

/-- Names assigned to the case markers of a document, with the running
case counter threaded through, mirroring the naming logic of the reading
loop. -/
def extract_names_aux (k : Nat) : List Line → List Line
  | [] => []
  | l :: ls =>
    match matchCaseLine l with
    | some p =>
      (if (stripLine p.2).length > 0 then stripLine p.2 else defaultName (k + 1)) ::
        extract_names_aux (k + 1) ls
    | none => extract_names_aux k ls

/-- Number of case-marker lines in a document. -/
def countCases (ls : List Line) : Nat :=
  (ls.filter fun l => (matchCaseLine l).isSome).length

theorem extract_names_aux_append (k : Nat) (xs ys : List Line) :
    extract_names_aux k (xs ++ ys) =
      extract_names_aux k xs ++ extract_names_aux (k + countCases xs) ys := by
  induction xs generalizing k with
  | nil => simp [extract_names_aux, countCases]
  | cons l ls ih =>
    cases hl : matchCaseLine l with
    | some p =>
      simp only [List.cons_append, extract_names_aux, hl, List.append_eq]
      rw [ih (k + 1)]
      have harg : k + 1 + countCases ls = k + countCases (l :: ls) := by
        simp only [countCases, List.filter, hl, Option.isSome_some,
          List.length_cons]
        omega
      rw [harg]
    | none =>
      simp only [List.cons_append, extract_names_aux, hl, List.append_eq]
      rw [ih k]
      have harg : k + countCases ls = k + countCases (l :: ls) := by
        simp [countCases, List.filter, hl]
      rw [harg]

/-- A successful run collects precisely the names `extract_names_aux`
assigns, appended to the names already accumulated. -/
theorem splitLinesAux_names (ls : List Line) (st st1 : SplitState)
    (h : splitLinesAux st ls = Except.ok st1) :
    st1.test_case_names = st.test_case_names ++
      extract_names_aux st.current_test_count ls := by
  induction ls generalizing st with
  | nil =>
    simp only [splitLinesAux] at h
    cases h
    simp [extract_names_aux]
  | cons l ls ih =>
    simp only [splitLinesAux] at h
    cases hstep : splitStep st l with
    | error e => rw [hstep] at h; cases h
    | ok st2 =>
      rw [hstep] at h
      have hrec := ih st2 h
      cases hl : matchCaseLine l with
      | some p =>
        simp only [splitStep, hl] at hstep
        cases hdup : (lookupName st.test_cases
            (if (stripLine p.2).length > 0 then stripLine p.2
             else defaultName (st.current_test_count + 1))).isSome with
        | true =>
          simp only [hdup, if_true] at hstep
          cases hstep
        | false =>
          simp only [hdup, Bool.false_eq_true, if_false] at hstep
          cases hstep
          simp only [extract_names_aux, hl]
          rw [hrec]
          simp [List.append_assoc]
      | none =>
        simp only [splitStep, hl] at hstep
        simp only [extract_names_aux, hl]
        cases hb : matchBeginLine l with
        | true =>
          simp only [hb, if_true] at hstep
          cases hstep; simpa using hrec
        | false =>
          cases he : matchEndLine l with
          | true =>
            simp only [hb, he, Bool.false_eq_true, if_false, if_true] at hstep
            cases hstep; simpa using hrec
          | false =>
            cases hit : st.in_test with
            | true =>
              simp only [hb, he, hit, Bool.false_eq_true, if_false, if_true] at hstep
              cases hstep; simpa using hrec
            | false =>
              cases hbg : st.in_non_test_matter with
              | true =>
                simp only [hb, he, hit, hbg, Bool.false_eq_true, if_false,
                  if_true] at hstep
                cases hstep; simpa using hrec
              | false =>
                simp only [hb, he, hit, hbg, Bool.false_eq_true, if_false,
                  if_true] at hstep
                cases hstep; simpa using hrec

theorem lookupName_eq_none {tcs : List (Line × TestCase)} {n : Line} :
    lookupName tcs n = none ↔ ∀ p ∈ tcs, p.1 ≠ n := by
  induction tcs with
  | nil => simp [lookupName]
  | cons p ps ih =>
    simp only [lookupName, List.mem_cons]
    by_cases hp : p.1 = n
    · rw [if_pos hp]
      constructor
      · intro h; cases h
      · intro h; exact absurd hp (h p (Or.inl rfl))
    · rw [if_neg hp]
      constructor
      · intro h q hq
        cases hq with
        | inl he => cases he; exact hp
        | inr hm => exact ih.mp h q hm
      · intro h
        exact ih.mpr fun q hq => h q (Or.inr hq)

theorem keys_appendText (tcs : List (Line × TestCase)) (n : Line) (s : Line) :
    (appendText tcs n s).map Prod.fst = tcs.map Prod.fst := by
  induction tcs with
  | nil => rfl
  | cons p ps ih =>
    show (if p.1 = n then (p.1, { p.2 with text := p.2.text ++ s }) else p).1 ::
        (appendText ps n s).map Prod.fst = p.1 :: ps.map Prod.fst
    rw [ih]
    by_cases hp : p.1 = n
    · rw [if_pos hp]
    · rw [if_neg hp]

/-- Invariant of the reading loop: the dictionary keys are exactly the
collected names, in order, and the duplicate check keeps them nodup. -/
theorem splitLinesAux_keys (ls : List Line) (st st1 : SplitState)
    (h : splitLinesAux st ls = Except.ok st1)
    (hkeys : st.test_cases.map Prod.fst = st.test_case_names)
    (hnd : st.test_case_names.Nodup) :
    st1.test_cases.map Prod.fst = st1.test_case_names ∧
      st1.test_case_names.Nodup := by
  induction ls generalizing st with
  | nil =>
    simp only [splitLinesAux] at h
    cases h
    exact ⟨hkeys, hnd⟩
  | cons l ls ih =>
    simp only [splitLinesAux] at h
    cases hstep : splitStep st l with
    | error e => rw [hstep] at h; cases h
    | ok st2 =>
      rw [hstep] at h
      cases hl : matchCaseLine l with
      | some p =>
        simp only [splitStep, hl] at hstep
        cases hdup : (lookupName st.test_cases
            (if (stripLine p.2).length > 0 then stripLine p.2
             else defaultName (st.current_test_count + 1))).isSome with
        | true =>
          simp only [hdup, if_true] at hstep
          cases hstep
        | false =>
          simp only [hdup, Bool.false_eq_true, if_false] at hstep
          cases hstep
          refine ih _ h ?_ ?_
          · simp only [keys_appendText, List.map_append, hkeys, List.map_cons,
              List.map_nil]
          · have hnone : lookupName st.test_cases
                (if (stripLine p.2).length > 0 then stripLine p.2
                 else defaultName (st.current_test_count + 1)) = none := by
              cases hlk : lookupName st.test_cases
                  (if (stripLine p.2).length > 0 then stripLine p.2
                   else defaultName (st.current_test_count + 1)) with
              | none => rfl
              | some v => rw [hlk] at hdup; simp at hdup
            have hnotin : (if (stripLine p.2).length > 0 then stripLine p.2
                else defaultName (st.current_test_count + 1)) ∉
                  st.test_case_names := by
              rw [← hkeys]
              intro hmem
              obtain ⟨q, hq, hq1⟩ := List.mem_map.mp hmem
              exact (lookupName_eq_none.mp hnone q hq) hq1
            simp [List.nodup_append, hnd, hnotin]
      | none =>
        simp only [splitStep, hl] at hstep
        cases hb : matchBeginLine l with
        | true =>
          simp only [hb, if_true] at hstep
          cases hstep
          exact ih _ h (by simpa using hkeys) (by simpa using hnd)
        | false =>
          cases he : matchEndLine l with
          | true =>
            simp only [hb, he, Bool.false_eq_true, if_false, if_true] at hstep
            cases hstep
            exact ih _ h (by simpa using hkeys) (by simpa using hnd)
          | false =>
            cases hit : st.in_test with
            | true =>
              simp only [hb, he, hit, Bool.false_eq_true, if_false, if_true] at hstep
              cases hstep
              exact ih _ h (by simpa [keys_appendText] using hkeys)
                (by simpa using hnd)
            | false =>
              cases hbg : st.in_non_test_matter with
              | true =>
                simp only [hb, he, hit, hbg, Bool.false_eq_true, if_false,
                  if_true] at hstep
                cases hstep
                exact ih _ h (by simpa using hkeys) (by simpa using hnd)
              | false =>
                simp only [hb, he, hit, hbg, Bool.false_eq_true, if_false,
                  if_true] at hstep
                cases hstep
                exact ih _ h (by simpa using hkeys) (by simpa using hnd)

/-- The only error `splitStep` can produce is the duplicate-name
`MalformedInput` exit. -/
theorem splitStep_error (st : SplitState) (l : Line) (e : FatalError)
    (h : splitStep st l = Except.error e) :
    ∃ nm ln, e = FatalError.MalformedInput nm ln := by
  cases hl : matchCaseLine l with
  | some p =>
    simp only [splitStep, hl] at h
    cases hdup : (lookupName st.test_cases
        (if (stripLine p.2).length > 0 then stripLine p.2
         else defaultName (st.current_test_count + 1))).isSome with
    | true =>
      simp only [hdup, if_true] at h
      cases h
      exact ⟨_, _, rfl⟩
    | false =>
      simp only [hdup, Bool.false_eq_true, if_false] at h
      cases h
  | none =>
    simp only [splitStep, hl] at h
    cases hb : matchBeginLine l with
    | true => simp only [hb, if_true] at h; cases h
    | false =>
      cases he : matchEndLine l with
      | true =>
        simp only [hb, he, Bool.false_eq_true, if_false, if_true] at h
        cases h
      | false =>
        cases hit : st.in_test with
        | true =>
          simp only [hb, he, hit, Bool.false_eq_true, if_false, if_true] at h
          cases h
        | false =>
          cases hbg : st.in_non_test_matter with
          | true =>
            simp only [hb, he, hit, hbg, Bool.false_eq_true, if_false,
              if_true] at h
            cases h
          | false =>
            simp only [hb, he, hit, hbg, Bool.false_eq_true, if_false,
              if_true] at h
            cases h

/-- The only error the whole reading loop can produce is `MalformedInput`. -/
theorem splitLinesAux_error (ls : List Line) (st : SplitState) (e : FatalError)
    (h : splitLinesAux st ls = Except.error e) :
    ∃ nm ln, e = FatalError.MalformedInput nm ln := by
  induction ls generalizing st with
  | nil => simp only [splitLinesAux] at h; cases h
  | cons l ls ih =>
    simp only [splitLinesAux] at h
    cases hstep : splitStep st l with
    | error e0 =>
      rw [hstep] at h
      cases h
      exact splitStep_error st l _ hstep
    | ok st2 =>
      rw [hstep] at h
      exact ih st2 h

/-- Claim C7: whenever two test-case marker lines of a document carry the
same explicit (non-empty, stripped) name, `split_tptp_input` fails with a
fatal `MalformedInput` error — short-circuiting all further processing —
regardless of whether either marker carries the negated qualifier
(`n1`, `n2` arbitrary) and regardless of where in the document the two
markers sit (`pre`, `mid`, `post` arbitrary, inside or outside any test
section). -/
theorem duplicate_case_name_malformed
    (pre mid post : List Line) (l1 l2 : Line) (n1 n2 : Bool) (r1 r2 s : Line)
    (h1 : matchCaseLine l1 = some (n1, r1)) (h2 : matchCaseLine l2 = some (n2, r2))
    (hs1 : stripLine r1 = s) (hs2 : stripLine r2 = s) (hs : s.length > 0) :
    ∃ nm ln, split_tptp_input (pre ++ (l1 :: (mid ++ (l2 :: post)))) =
      Except.error (FatalError.MalformedInput nm ln) := by
  subst hs1
  cases hres : splitLinesAux initState (pre ++ (l1 :: (mid ++ (l2 :: post)))) with
  | error e =>
    obtain ⟨nm, ln, rfl⟩ := splitLinesAux_error _ _ _ hres
    exact ⟨nm, ln, by simp [split_tptp_input, hres]⟩
  | ok st =>
    exfalso
    have hnames := splitLinesAux_names _ _ _ hres
    have hnd := (splitLinesAux_keys _ _ _ hres rfl List.nodup_nil).2
    rw [hnames] at hnd
    simp only [initState, List.nil_append] at hnd
    rw [extract_names_aux_append] at hnd
    simp only [extract_names_aux, h1, hs, if_true] at hnd
    rw [extract_names_aux_append] at hnd
    simp only [extract_names_aux, h2, hs2, hs, if_true] at hnd
    have h3 := hnd.of_append_right
    have h4 := (List.nodup_cons.mp h3).1
    exact h4 (by simp [← hs2])

/-- Witness for C7 on a concrete document: the same name, once negated
and once not, one marker inside a test section and one outside. -/
theorem duplicate_case_name_malformed_witness :
    ∃ nm ln,
      split_tptp_input
          (([] : List Line) ++
            ("% Test case: dup_name".toList ::
              (["% Test runner: begin tests.".toList, "fof(c1,conj,(p)).".toList] ++
                ("% Negated test case: dup_name".toList :: ["tail".toList])))) =
        Except.error (FatalError.MalformedInput nm ln) :=
  duplicate_case_name_malformed
    [] ["% Test runner: begin tests.".toList, "fof(c1,conj,(p)).".toList]
    ["tail".toList]
    "% Test case: dup_name".toList "% Negated test case: dup_name".toList
    false true "dup_name".toList "dup_name".toList "dup_name".toList
    (by decide) (by decide) (by decide) (by decide) (by decide)

/-- Claim C1, counterexample: in the document consisting of the single
test-case marker line, the extracted case's body is exactly that marker
line (newline restored) — the marker line that opens a case is part of
the case's body, because the source flags only begin/end section markers
as disposable, and the common dispatch then appends the case-marker line
to the freshly created case. -/
theorem case_marker_line_in_body_counterexample :
    (matchCaseLine "% Test case: a".toList).isSome = true ∧
    split_tptp_input ["% Test case: a".toList] =
      Except.ok
        { non_test_matter := [],
          test_case_names := ["a".toList],
          test_cases := [("a".toList,
            { index := 1, line := 1, negated := false,
              text := "% Test case: a".toList ++ ['\n'] })] } := by
  constructor
  · decide
  · decide

/-- Background text consists only of content (non-marker) lines. -/
def bgShape (m : Line) : Prop :=
  ∃ bg : List Line, (∀ l ∈ bg, markerless l = true) ∧ m = joinNL bg

/-- A case body is its opening case-marker line followed by content
(non-marker) lines. -/
def bodyShape (t : Line) : Prop :=
  ∃ opener rest, (matchCaseLine opener).isSome = true ∧
    (∀ l ∈ rest, markerless l = true) ∧
    t = opener ++ '\n' :: joinNL rest

theorem appendText_append_list (xs ys : List (Line × TestCase)) (n s : Line) :
    appendText (xs ++ ys) n s = appendText xs n s ++ appendText ys n s := by
  simp [appendText]

theorem appendText_of_lookup_none (tcs : List (Line × TestCase)) (n s : Line)
    (h : lookupName tcs n = none) : appendText tcs n s = tcs := by
  induction tcs with
  | nil => rfl
  | cons p ps ih =>
    simp only [lookupName] at h
    by_cases hp : p.1 = n
    · rw [if_pos hp] at h; cases h
    · rw [if_neg hp] at h
      show (if p.1 = n then (p.1, { p.2 with text := p.2.text ++ s }) else p) ::
          appendText ps n s = p :: ps
      rw [if_neg hp, ih h]

theorem bodyShape_appendText (tcs : List (Line × TestCase)) (n l : Line)
    (hml : markerless l = true)
    (hall : ∀ p ∈ tcs, bodyShape p.2.text) :
    ∀ p ∈ appendText tcs n (l ++ ['\n']), bodyShape p.2.text := by
  intro p hp
  obtain ⟨q, hq, rfl⟩ := List.mem_map.mp hp
  by_cases hqn : q.1 = n
  · rw [if_pos hqn]
    obtain ⟨opener, rest, hop, hrest, htext⟩ := hall q hq
    refine ⟨opener, rest ++ [l], hop, ?_, ?_⟩
    · intro x hx
      cases List.mem_append.mp hx with
      | inl hx1 => exact hrest x hx1
      | inr hx2 => simp at hx2; cases hx2; exact hml
    · show q.2.text ++ (l ++ ['\n']) = opener ++ '\n' :: joinNL (rest ++ [l])
      rw [htext, joinNL_append]
      simp [joinNL, List.append_assoc]
  · rw [if_neg hqn]
    exact hall q hq

/-- Claim C1, amended: begin-test-section and end-test-section marker
lines are appended neither to background nor to any case body, and the
background never contains a case-marker line either; but the test-case
marker line that opens a case IS appended to that case (and only that
case) as the first line of its body: every successful split yields a
background made only of non-marker lines, and case bodies consisting of
the opening case-marker line followed by non-marker lines. -/
theorem marker_disposal (doc : List Line) (r : SplitResult)
    (h : split_tptp_input doc = Except.ok r) :
    bgShape r.non_test_matter ∧ ∀ p ∈ r.test_cases, bodyShape p.2.text := by
  have main : ∀ (ls : List Line) (st st1 : SplitState),
      splitLinesAux st ls = Except.ok st1 →
      bgShape st.non_test_matter →
      (∀ p ∈ st.test_cases, bodyShape p.2.text) →
      bgShape st1.non_test_matter ∧ ∀ p ∈ st1.test_cases, bodyShape p.2.text := by
    intro ls
    induction ls with
    | nil =>
      intro st st1 hrun hbg hbody
      simp only [splitLinesAux] at hrun
      cases hrun
      exact ⟨hbg, hbody⟩
    | cons l ls ih =>
      intro st st1 hrun hbg hbody
      simp only [splitLinesAux] at hrun
      cases hstep : splitStep st l with
      | error e => rw [hstep] at hrun; cases hrun
      | ok st2 =>
        rw [hstep] at hrun
        cases hl : matchCaseLine l with
        | some p =>
          simp only [splitStep, hl] at hstep
          cases hdup : (lookupName st.test_cases
              (if (stripLine p.2).length > 0 then stripLine p.2
               else defaultName (st.current_test_count + 1))).isSome with
          | true =>
            simp only [hdup, if_true] at hstep
            cases hstep
          | false =>
            simp only [hdup, Bool.false_eq_true, if_false] at hstep
            cases hstep
            refine ih _ _ hrun (by simpa using hbg) ?_
            have hnone : lookupName st.test_cases
                (if (stripLine p.2).length > 0 then stripLine p.2
                 else defaultName (st.current_test_count + 1)) = none := by
              cases hlk : lookupName st.test_cases
                  (if (stripLine p.2).length > 0 then stripLine p.2
                   else defaultName (st.current_test_count + 1)) with
              | none => rfl
              | some v => rw [hlk] at hdup; simp at hdup
            intro q hq
            rw [appendText_append_list, appendText_of_lookup_none _ _ _ hnone] at hq
            cases List.mem_append.mp hq with
            | inl hq1 => exact hbody q hq1
            | inr hq2 =>
              simp only [appendText, List.map_cons, List.map_nil, if_pos rfl,
                List.mem_singleton] at hq2
              cases hq2
              exact ⟨l, [], by simp [hl], by simp, by simp [joinNL]⟩
        | none =>
          simp only [splitStep, hl] at hstep
          cases hb : matchBeginLine l with
          | true =>
            simp only [hb, if_true] at hstep
            cases hstep
            exact ih _ _ hrun (by simpa using hbg) (by simpa using hbody)
          | false =>
            cases he : matchEndLine l with
            | true =>
              simp only [hb, he, Bool.false_eq_true, if_false, if_true] at hstep
              cases hstep
              exact ih _ _ hrun (by simpa using hbg) (by simpa using hbody)
            | false =>
              have hml : markerless l = true := by
                simp [markerless, hl, hb, he]
              cases hit : st.in_test with
              | true =>
                simp only [hb, he, hit, Bool.false_eq_true, if_false,
                  if_true] at hstep
                cases hstep
                refine ih _ _ hrun (by simpa using hbg) ?_
                exact bodyShape_appendText st.test_cases st.current_test_name l
                  hml hbody
              | false =>
                cases hbg2 : st.in_non_test_matter with
                | true =>
                  simp only [hb, he, hit, hbg2, Bool.false_eq_true, if_false,
                    if_true] at hstep
                  cases hstep
                  refine ih _ _ hrun ?_ (by simpa using hbody)
                  obtain ⟨bg, hbgml, hbgeq⟩ := hbg
                  refine ⟨bg ++ [l], ?_, ?_⟩
                  · intro x hx
                    cases List.mem_append.mp hx with
                    | inl hx1 => exact hbgml x hx1
                    | inr hx2 => simp at hx2; cases hx2; exact hml
                  · show st.non_test_matter ++ l ++ ['\n'] = joinNL (bg ++ [l])
                    rw [hbgeq, joinNL_append]
                    simp [joinNL, List.append_assoc]
                | false =>
                  simp only [hb, he, hit, hbg2, Bool.false_eq_true, if_false,
                    if_true] at hstep
                  cases hstep
                  exact ih _ _ hrun (by simpa using hbg) (by simpa using hbody)
  simp only [split_tptp_input] at h
  cases hres : splitLinesAux initState doc with
  | error e => rw [hres] at h; cases h
  | ok st =>
    rw [hres] at h
    cases h
    exact main doc initState st hres ⟨[], by simp, rfl⟩ (by simp [initState])

/-- Witness for the amended C1 on a concrete document. -/
theorem marker_disposal_witness :
    bgShape ([] : Line) ∧
      ∀ p ∈ [("a".toList,
          ({ index := 1, line := 1, negated := false,
             text := "% Test case: a\n".toList } : TestCase))],
        bodyShape p.2.text :=
  marker_disposal ["% Test case: a".toList]
    { non_test_matter := [],
      test_case_names := ["a".toList],
      test_cases := [("a".toList,
        { index := 1, line := 1, negated := false,
          text := "% Test case: a\n".toList })] }
    (by decide)

/-- Claim C5: the negation adjustment swaps Success and Failure, leaves
LikelyFailure and Error unchanged, and is an involution on statuses. -/
theorem negation_involution :
    invert_status 'S' = 'F' ∧ invert_status 'F' = 'S' ∧
    invert_status '?' = '?' ∧ invert_status 'E' = 'E' ∧
    ∀ c : Char, invert_status (invert_status c) = c := by
  refine ⟨rfl, rfl, rfl, rfl, ?_⟩
  intro c
  by_cases h1 : c = 'S'
  · simp [invert_status, h1]
  · by_cases h2 : c = 'F'
    · simp [invert_status, h2]
    · simp [invert_status, h1, h2]

/-- A line of an artifact that matches none of the three classification
patterns. -/
def artifact_noise (l : Line) : Bool :=
  !matchLitCS successPat l && !matchLitCS failurePat l && !matchLitCS likelyFailurePat l

theorem classify_step_noise {a : Char} {l : Line} (h : artifact_noise l = true) :
    classify_step a l = a := by
  simp only [artifact_noise, Bool.and_eq_true, Bool.not_eq_true'] at h
  simp [classify_step, h.1.1, h.1.2, h.2]

theorem foldl_classify_noise (ls : List Line) (a : Char)
    (h : ∀ l ∈ ls, artifact_noise l = true) :
    ls.foldl classify_step a = a := by
  induction ls generalizing a with
  | nil => rfl
  | cons l ls ih =>
    rw [List.foldl_cons, classify_step_noise (h l (by simp))]
    exact ih a fun x hx => h x (by simp [hx])

/-- Claim C3: classification scans every line with the three anchored
markers and the last matching line wins; no matching line gives `Error`;
in particular a no-proof-found line followed later by a proof-found line
classifies as Success, and the reverse order as Failure, and a
`# Failure:` line gives LikelyFailure. -/
theorem classification_last_match_wins :
    (∀ (art : List Line) (l : Line),
        classify_artifact (art ++ [l]) =
          if matchLitCS successPat l then 'S'
          else if matchLitCS failurePat l then 'F'
          else if matchLitCS likelyFailurePat l then '?'
          else classify_artifact art) ∧
    (∀ art : List Line,
        (∀ l ∈ art, artifact_noise l = true) → classify_artifact art = 'E') ∧
    (∀ (pre mid post : List Line) (l1 l2 : Line),
        matchLitCS failurePat l1 = true →
        matchLitCS successPat l2 = true →
        (∀ l ∈ post, artifact_noise l = true) →
        classify_artifact (pre ++ (l1 :: (mid ++ (l2 :: post)))) = 'S') ∧
    (∀ (pre mid post : List Line) (l1 l2 : Line),
        matchLitCS successPat l1 = true →
        matchLitCS successPat l2 = false →
        matchLitCS failurePat l2 = true →
        (∀ l ∈ post, artifact_noise l = true) →
        classify_artifact (pre ++ (l1 :: (mid ++ (l2 :: post)))) = 'F') ∧
    (∀ (pre post : List Line) (l : Line),
        matchLitCS successPat l = false →
        matchLitCS failurePat l = false →
        matchLitCS likelyFailurePat l = true →
        (∀ x ∈ post, artifact_noise x = true) →
        classify_artifact (pre ++ (l :: post)) = '?') := by
  refine ⟨?_, ?_, ?_, ?_, ?_⟩
  · intro art l
    simp [classify_artifact, List.foldl_append, classify_step]
  · intro art h
    exact foldl_classify_noise art 'E' h
  · intro pre mid post l1 l2 hf hs hpost
    simp only [classify_artifact, List.foldl_append, List.foldl_cons]
    rw [show classify_step (List.foldl classify_step
        (classify_step (List.foldl classify_step 'E' pre) l1) mid) l2 = 'S' by
      simp [classify_step, hs]]
    exact foldl_classify_noise post 'S' hpost
  · intro pre mid post l1 l2 hs1 hs2 hf2 hpost
    simp only [classify_artifact, List.foldl_append, List.foldl_cons]
    rw [show classify_step (List.foldl classify_step
        (classify_step (List.foldl classify_step 'E' pre) l1) mid) l2 = 'F' by
      simp [classify_step, hs2, hf2]]
    exact foldl_classify_noise post 'F' hpost
  · intro pre post l hs hf hq hpost
    simp only [classify_artifact, List.foldl_append, List.foldl_cons]
    rw [show classify_step (List.foldl classify_step 'E' pre) l = '?' by
      simp [classify_step, hs, hf, hq]]
    exact foldl_classify_noise post '?' hpost

/-- Witness for C3 on concrete artifacts. -/
theorem classification_last_match_wins_witness :
    classify_artifact
        ([] ++ ("# No proof found".toList ::
          (["# working".toList] ++ ("# Proof found.".toList :: ["done".toList])))) = 'S' ∧
    classify_artifact
        ([] ++ ("# Proof found.".toList ::
          ([] ++ ("# No proof found".toList :: [])))) = 'F' ∧
    classify_artifact ([] ++ ("# Failure: time limit".toList :: [])) = '?' ∧
    classify_artifact ["junk".toList] = 'E' :=
  ⟨classification_last_match_wins.2.2.1 [] ["# working".toList] ["done".toList]
      "# No proof found".toList "# Proof found.".toList
      (by decide) (by decide) (by decide),
   classification_last_match_wins.2.2.2.1 [] [] []
      "# Proof found.".toList "# No proof found".toList
      (by decide) (by decide) (by decide) (by decide),
   classification_last_match_wins.2.2.2.2 [] [] "# Failure: time limit".toList
      (by decide) (by decide) (by decide) (by decide),
   classification_last_match_wins.2.1 ["junk".toList] (by decide)⟩

/-- Claim C10: `run_test_case` and `run_test_cases` accept `dry_run` but
never read it — a dry run behaves exactly like a real run. -/
theorem dry_run_has_no_effect :
    (∀ (tc : TestCase) (ntm fn : Line) (prover : Line → List Line) (v : Nat),
        run_test_case tc ntm fn prover true v =
          run_test_case tc ntm fn prover false v) ∧
    (∀ (tcs : List (Line × TestCase)) (sel : List Line) (path ntm : Line)
        (prover : Line → List Line) (v : Nat),
        run_test_cases tcs sel path ntm prover true v =
          run_test_cases tcs sel path ntm prover false v) :=
  ⟨fun _ _ _ _ _ => rfl, fun _ _ _ _ _ _ => rfl⟩

/-- The always-true self-membership check of `run_test_cases` finds no
offending name, ever. -/
theorem validate_tests_to_run_eq_none (sel : List Line) :
    validate_tests_to_run sel = none := by
  apply List.find?_eq_none.mpr
  intro x hx
  simp [hx]

/-- Claim C9: the name-validation loop of `run_test_cases` tests each
requested name for membership in the request list itself, so it never
fires, and `run_test_cases` always reaches the execution loop and
returns a report. -/
theorem self_validation_unreachable :
    (∀ tests_to_run : List Line, validate_tests_to_run tests_to_run = none) ∧
    (∀ (tcs : List (Line × TestCase)) (sel : List Line) (path ntm : Line)
        (prover : Line → List Line) (dr : Bool) (v : Nat),
        ∃ evs rep, run_test_cases tcs sel path ntm prover dr v =
          (evs, Except.ok rep)) := by
  refine ⟨validate_tests_to_run_eq_none, ?_⟩
  intro tcs sel path ntm prover dr v
  unfold run_test_cases
  rw [validate_tests_to_run_eq_none]
  exact ⟨_, _, rfl⟩

/-- The detail triples recorded by the loop of `run_test_cases`, one
per selected case that is not an unqualified success (every case when
`verbosity > 1`). -/
def recorded_entries (tcs : List (Line × TestCase)) (path ntm : Line)
    (prover : Line → List Line) (dr : Bool) (v : Nat) :
    List Line → List (Line × Char × Line)
  | [] => []
  | n :: ns =>
    (if effective_status tcs ntm path prover dr v n = 'S' then
       (if v > 1 then [(n, effective_status tcs ntm path prover dr v n,
          result_filename_for path n)] else [])
     else [(n, effective_status tcs ntm path prover dr v n,
        result_filename_for path n)]) ++
      recorded_entries tcs path ntm prover dr v ns

/-- The events emitted by the loop of `run_test_cases`, two per selected
case, in selection order. -/
def case_events (tcs : List (Line × TestCase)) (path ntm : Line)
    (prover : Line → List Line) (dr : Bool) (v : Nat) :
    List Line → List SuiteEvent
  | [] => []
  | n :: ns =>
    (run_test_case (lookupD tcs n) ntm (result_filename_for path n) prover dr v).2 ++
      case_events tcs path ntm prover dr v ns

theorem effective_status_eq (tcs : List (Line × TestCase)) (ntm path : Line)
    (prover : Line → List Line) (dr : Bool) (v : Nat) (n : Line) :
    (if (lookupD tcs n).negated
     then invert_status
       (run_test_case (lookupD tcs n) ntm (result_filename_for path n) prover dr v).1
     else (run_test_case (lookupD tcs n) ntm (result_filename_for path n) prover dr v).1) =
      effective_status tcs ntm path prover dr v n := rfl

/-- The execution loop of `run_test_cases`, decomposed: the summary is
the map of negation-adjusted statuses, the recorded triples and events
accumulate per case. -/
theorem run_cases_foldl (tcs : List (Line × TestCase)) (path ntm : Line)
    (prover : Line → List Line) (dr : Bool) (v : Nat) (sel : List Line)
    (acc : Line × List (Line × Char × Line) × List SuiteEvent) :
    sel.foldl (run_cases_step tcs path ntm prover dr v) acc =
      (acc.1 ++ sel.map (fun n => summary_char (effective_status tcs ntm path prover dr v n)),
       acc.2.1 ++ recorded_entries tcs path ntm prover dr v sel,
       acc.2.2 ++ case_events tcs path ntm prover dr v sel) := by
  induction sel generalizing acc with
  | nil => simp [recorded_entries, case_events]
  | cons n ns ih =>
    rw [List.foldl_cons, ih]
    simp only [run_cases_step, effective_status_eq, recorded_entries, case_events,
      List.map_cons]
    by_cases hS : effective_status tcs ntm path prover dr v n = 'S'
    · by_cases hv : v > 1
      · simp [hS, hv, summary_char, List.append_assoc]
      · simp [hS, hv, summary_char, List.append_assoc]
    · simp [hS, summary_char, List.append_assoc]

/-- Claim C4: `run_test_cases` always returns a report whose summary
string has exactly one character per selected case, in order, the
character being the dot for Success and the status letter otherwise,
applied to that case's negation-adjusted status; no selected case is
dropped. -/
theorem summary_reflects_selection (tcs : List (Line × TestCase))
    (sel : List Line) (path ntm : Line) (prover : Line → List Line)
    (dr : Bool) (v : Nat) :
    ∃ evs rep, run_test_cases tcs sel path ntm prover dr v = (evs, Except.ok rep) ∧
      rep.test_results.length = sel.length ∧
      rep.test_results =
        sel.map fun n => summary_char (effective_status tcs ntm path prover dr v n) := by
  simp only [run_test_cases, validate_tests_to_run_eq_none]
  refine ⟨_, _, rfl, ?_, ?_⟩
  · show (sel.foldl (run_cases_step tcs path ntm prover dr v) ([], [], [])).1.length =
      sel.length
    rw [run_cases_foldl]
    simp
  · show (sel.foldl (run_cases_step tcs path ntm prover dr v) ([], [], [])).1 =
      sel.map fun n => summary_char (effective_status tcs ntm path prover dr v n)
    rw [run_cases_foldl]
    simp

/-- Claim C2, counterexample: a negated case whose effective status is
Failure (the prover proved the conjecture, undesirably) is reported with
the phrase unintentionally/undesirably succeeded — not, as the claim
states, with failed as intended. -/
theorem negated_phrase_counterexample :
    run_test_cases
        [("a".toList,
          { index := 1, line := 1, negated := true,
            text := "body\n".toList })]
        ["a".toList] "res".toList "bg\n".toList
        (fun _ => ["# Proof found.".toList]) false 0 =
      ([SuiteEvent.ArtifactWritten "res/a.txt".toList,
        SuiteEvent.ProverInvoked ("bg\n".toList ++ "body\n".toList)],
       Except.ok
         { test_results := ['F'],
           details := [("a".toList, 'F', "res/a.txt".toList)],
           detail_reports := [(1, "a".toList, 1,
             "unintentionally/undesirably succeeded".toList)] }) ∧
    "unintentionally/undesirably succeeded".toList ≠
      "failed as intended".toList := by
  constructor
  · decide
  · decide

/-- Claim C2, amended: the detail-report phrase table keyed on the
negated flag and the effective (negation-adjusted) status reads:
negated with effective Failure gives "unintentionally/undesirably
succeeded"; negated with effective Success gives "failed as intended";
non-negated Failure gives "FAILED"; non-negated Success gives
"succeeded"; Error (and LikelyFailure) gives "had ERRORS" regardless of
negation — and every recorded case's detail line carries exactly the
phrase this table selects for the case's negated flag and recorded
effective status. -/
theorem detail_status_phrase_table :
    status_message true 'F' = "unintentionally/undesirably succeeded".toList ∧
    status_message true 'S' = "failed as intended".toList ∧
    status_message false 'F' = "FAILED".toList ∧
    status_message false 'S' = "succeeded".toList ∧
    (∀ b : Bool, status_message b 'E' = "had ERRORS".toList) ∧
    (∀ b : Bool, status_message b '?' = "had ERRORS".toList) ∧
    (∀ (tcs : List (Line × TestCase)) (sel : List Line) (path ntm : Line)
        (prover : Line → List Line) (dr : Bool) (v : Nat)
        (evs : List SuiteEvent) (rep : RunReport),
        run_test_cases tcs sel path ntm prover dr v = (evs, Except.ok rep) →
        ∀ e ∈ rep.detail_reports, ∃ d ∈ rep.details,
          e = ((lookupD tcs d.1).index, d.1, (lookupD tcs d.1).line,
               status_message (lookupD tcs d.1).negated d.2.1)) := by
  refine ⟨rfl, rfl, rfl, rfl, ?_, ?_, ?_⟩
  · intro b; cases b <;> rfl
  · intro b; cases b <;> rfl
  · intro tcs sel path ntm prover dr v evs rep h
    simp only [run_test_cases, validate_tests_to_run_eq_none] at h
    cases h
    intro e he
    obtain ⟨d, hd, rfl⟩ := List.mem_map.mp he
    exact ⟨d, hd, rfl⟩

/-- Witness for the amended C2 on a concrete run. -/
theorem detail_status_phrase_table_witness :
    ∃ d ∈ [("a".toList, 'F', "res/a.txt".toList)],
      ((1 : Nat), "a".toList, (1 : Nat),
        "unintentionally/undesirably succeeded".toList) =
      ((lookupD [("a".toList,
          ({ index := 1, line := 1, negated := true,
             text := "body\n".toList } : TestCase))] d.1).index, d.1,
       (lookupD [("a".toList,
          ({ index := 1, line := 1, negated := true,
             text := "body\n".toList } : TestCase))] d.1).line,
       status_message (lookupD [("a".toList,
          ({ index := 1, line := 1, negated := true,
             text := "body\n".toList } : TestCase))] d.1).negated d.2.1) :=
  detail_status_phrase_table.2.2.2.2.2.2
    [("a".toList,
      { index := 1, line := 1, negated := true,
        text := "body\n".toList })]
    ["a".toList] "res".toList "bg\n".toList
    (fun _ => ["# Proof found.".toList]) false 0
    [SuiteEvent.ArtifactWritten "res/a.txt".toList,
     SuiteEvent.ProverInvoked ("bg\n".toList ++ "body\n".toList)]
    { test_results := ['F'],
      details := [("a".toList, 'F', "res/a.txt".toList)],
      detail_reports := [(1, "a".toList, 1,
        "unintentionally/undesirably succeeded".toList)] }
    (by decide)
    (1, "a".toList, 1, "unintentionally/undesirably succeeded".toList)
    (by decide)

/-- Claim C8: when the caller requests a name that the split did not
discover, `run_test_suite` aborts with an `UnknownTestCase` fatal error
carrying an offending requested name, and no prover invocation or
artifact creation event is emitted. -/
theorem unknown_test_case_aborts (doc : List Line) (sel : List Line)
    (r : SplitResult) (prover : Line → List Line) (dr : Bool) (v : Nat)
    (bad : Line) (hsplit : split_tptp_input doc = Except.ok r)
    (hmem : bad ∈ sel) (hunk : bad ∉ r.test_case_names) :
    ∃ b, b ∈ sel ∧ b ∉ r.test_case_names ∧
      run_test_suite doc sel prover dr v =
        ([], Except.error (FatalError.UnknownTestCase b)) := by
  have hfind : ∃ b, sel.find? (fun n => decide (n ∉ r.test_case_names)) = some b := by
    cases hf : sel.find? (fun n => decide (n ∉ r.test_case_names)) with
    | some b => exact ⟨b, rfl⟩
    | none =>
      exfalso
      have := List.find?_eq_none.mp hf bad hmem
      simp [hunk] at this
  obtain ⟨b, hb⟩ := hfind
  have hbmem := List.mem_of_find?_eq_some hb
  have hbprop := List.find?_some hb
  refine ⟨b, hbmem, by simpa using hbprop, ?_⟩
  simp only [run_test_suite, hsplit, hb]

/-- Witness for C8 on a concrete document and selection. -/
theorem unknown_test_case_aborts_witness :
    ∃ b, b ∈ ["b".toList] ∧
      b ∉ (SplitResult.mk []
            ["a".toList]
            [("a".toList,
              { index := 1, line := 1, negated := false,
                text := "% Test case: a\n".toList })]).test_case_names ∧
      run_test_suite ["% Test case: a".toList] ["b".toList]
          (fun _ => []) false 0 =
        ([], Except.error (FatalError.UnknownTestCase b)) :=
  unknown_test_case_aborts ["% Test case: a".toList] ["b".toList]
    (SplitResult.mk []
      ["a".toList]
      [("a".toList,
        { index := 1, line := 1, negated := false,
          text := "% Test case: a\n".toList })])
    (fun _ => []) false 0 "b".toList
    (by decide) (by decide) (by decide)

/-- Claim C6, counterexample: when a case is already open at the moment
the begin-test-section marker appears, the marker does not close it (the
source clears only `in_non_test_matter`, not `in_test`), so the line
strictly between the begin marker and the first subsequent case marker
is appended to the open case's body — contradicting the claim that such
a line appears in no case body. -/
theorem dead_zone_counterexample :
    matchBeginLine "% Test runner: begin tests.".toList = true ∧
    markerless "stray line".toList = true ∧
    split_tptp_input
        ["% Test case: a".toList, "% Test runner: begin tests.".toList,
         "stray line".toList, "% Test case: b".toList] =
      Except.ok
        { non_test_matter := [],
          test_case_names := ["a".toList, "b".toList],
          test_cases :=
            [("a".toList,
              { index := 1, line := 1, negated := false,
                text := "% Test case: a\n".toList ++ "stray line\n".toList }),
             ("b".toList,
              { index := 2, line := 4, negated := false,
                text := "% Test case: b\n".toList })] } := by
  refine ⟨by decide, by decide, by decide⟩

end TptpSuite
